import Mathlib

/-!
Verification of the resource tracking core (api/resource/resource.go):
the Resource record, its identity model, the name-prefix/suffix stacks and
their partial matching, reference bookkeeping, and the Replace/Merge
combinators.  Go maps (string-keyed, unique keys, unordered) are embedded
as association lists together with a well-formedness predicate (no
duplicate keys); map writes are embedded as `aupsert`, which is exactly
functional update on such lists.
-/

/-- A loosely typed document value: the shallow embedding of Go
`interface` values as far as this file needs them — strings and
string-keyed mappings (`map[string]interface` in the source). -/
inductive KValue : Type where
  | str : String → KValue
  | kmap : List (String × KValue) → KValue

/-- Lookup in an association list, first binding wins (for well-formed
maps there is at most one binding per key). -/
def alookup {β : Type} : List (String × β) → String → Option β
  | [], _ => none
  | (k, v) :: rest, key => if k = key then some v else alookup rest key

/-- Functional update of an association list: replace the binding of
`key` in place, or append a fresh binding.  This is the embedding of a
Go map assignment `m[key] = v`. -/
def aupsert {β : Type} : List (String × β) → String → β → List (String × β)
  | [], key, v => [(key, v)]
  | (k, w) :: rest, key, v =>
    if k = key then (key, v) :: rest else (k, w) :: aupsert rest key v

/-- First-some choice on options, used to state "later map wins" merge
results. -/
def orElseO {β : Type} : Option β → Option β → Option β
  | some v, _ => some v
  | none, b => b

/-- Inserting every binding of `m` into `acc`: the embedding of Go's
`for key, value := range m` writing each pair into an accumulator map. -/
def foldUpsert {β : Type} (acc m : List (String × β)) : List (String × β) :=
  m.foldl (fun acc kv => aupsert acc kv.1 kv.2) acc

/-- A well-formed embedded Go map: no key bound twice.  Every real Go map
satisfies this; association lists that violate it do not correspond to a
Go value. -/
def WFmap {β : Type} (m : List (String × β)) : Prop :=
  (m.map Prod.fst).Nodup

instance {β : Type} (m : List (String × β)) : Decidable (WFmap m) := by
  unfold WFmap
  infer_instance

/-- Gvk from sigs.k8s.io/kustomize/api/resid. -/
structure Gvk where
  group : String
  version : String
  kind : String
deriving DecidableEq

/-- ResId from sigs.k8s.io/kustomize/api/resid: a Gvk plus name and
namespace. -/
structure ResId where
  gvk : Gvk
  name : String
  ns : String
deriving DecidableEq

/-- Modelled from the spec: resid.NewResIdWithNamespace, the Identity
constructor from the (group, version, kind, name, namespace) tuple; the
resid package is outside the source slice. -/
def NewResIdWithNamespace (g : Gvk) (n ns : String) : ResId :=
  ⟨g, n, ns⟩

/-- Modelled from the spec: types.GenArgs (GenerationOptions), an external
value carrying a behavior enumeration, a hash-suffix flag and "a textual
rendering function used when stringifying a Resource"; only the rendering
is consumed by the code under verification. -/
structure GenArgs where
  rendering : String
deriving DecidableEq

/-- Modelled from the spec: the external StructuredDocument capability
(ifc.Kunstructured), whose implementations live outside the source slice.
It supplies get/set of labels, annotations, name, namespace and kind
grouping, field access by path returning an error when the path is absent,
the backing map of the document, deep copy, and byte marshaling (whose
outcome we carry as data, since serialization itself is out of scope). -/
structure Kunstructured where
  gvk : Gvk
  name : String
  ns : Option String
  labels : List (String × String)
  annotations : List (String × String)
  fields : List (String × KValue)
  marshalOut : Except String String

def Kunstructured.GetGvk (u : Kunstructured) : Gvk := u.gvk

def Kunstructured.GetName (u : Kunstructured) : String := u.name

def Kunstructured.SetName (u : Kunstructured) (n : String) : Kunstructured :=
  { u with name := n }

def Kunstructured.SetNamespace (u : Kunstructured) (n : String) : Kunstructured :=
  { u with ns := some n }

def Kunstructured.GetLabels (u : Kunstructured) : List (String × String) := u.labels

def Kunstructured.SetLabels (u : Kunstructured) (m : List (String × String)) :
    Kunstructured :=
  { u with labels := m }

def Kunstructured.GetAnnotations (u : Kunstructured) : List (String × String) :=
  u.annotations

def Kunstructured.SetAnnotations (u : Kunstructured) (m : List (String × String)) :
    Kunstructured :=
  { u with annotations := m }

/-- Modelled from the spec: field access by path returns the value and no
error when the field is present, and the zero value paired with an error
when it is absent ("returning an error when the path is absent or
malformed").  Only the "metadata.namespace" path is exercised by the code
under verification. -/
def Kunstructured.GetString (u : Kunstructured) (p : String) :
    String × Option String :=
  if p = "metadata.namespace" then
    match u.ns with
    | some s => (s, none)
    | none => ("", some "no field found")
  else ("", some "no field found")

def Kunstructured.Map (u : Kunstructured) : List (String × KValue) := u.fields

/-- Deep copy of the document; on the value level of the embedding a copy
is the value itself (the Go code copies to sever aliasing, which values
do not have). -/
def Kunstructured.Copy (u : Kunstructured) : Kunstructured := u

def Kunstructured.MarshalJSON (u : Kunstructured) : Except String String :=
  u.marshalOut

/-- The Resource record of api/resource/resource.go. -/
structure Resource where
  kunStr : Kunstructured
  originalName : String
  originalNs : String
  options : GenArgs
  refBy : List ResId
  refVarNames : List String
  namePrefixes : List String
  nameSuffixes : List String

def Resource.ResetPrimaryData (r incoming : Resource) : Resource :=
  { r with kunStr := incoming.kunStr.Copy }

def Resource.GetName (r : Resource) : String := r.kunStr.GetName

def Resource.SetName (r : Resource) (n : String) : Resource :=
  { r with kunStr := r.kunStr.SetName n }

def Resource.Map (r : Resource) : List (String × KValue) := r.kunStr.Map

-- GetNamespace discards the error component of the field lookup:
-- `namespace, _ := r.kunStr.GetString("metadata.namespace")`.
def Resource.GetNamespace (r : Resource) : String :=
  (r.kunStr.GetString "metadata.namespace").1

def Resource.GetOriginalName (r : Resource) : String := r.originalName

def Resource.GetOriginalNs (r : Resource) : String := r.originalNs

def Resource.OrgId (r : Resource) : ResId :=
  NewResIdWithNamespace r.kunStr.GetGvk r.GetOriginalName r.GetOriginalNs

def Resource.CurId (r : Resource) : ResId :=
  NewResIdWithNamespace r.kunStr.GetGvk r.kunStr.GetName r.GetNamespace

-- copyRefBy and copyStringSlice exist in the source to sever slice
-- aliasing; on values they are the identity (the nil check included).
def Resource.copyRefBy (r : Resource) : List ResId := r.refBy

def copyStringSlice (s : List String) : List String := s

def Resource.copyOtherFields (r other : Resource) : Resource :=
  { r with
    originalName := other.originalName
    originalNs := other.originalNs
    options := other.options
    refBy := other.copyRefBy
    refVarNames := copyStringSlice other.refVarNames
    namePrefixes := copyStringSlice other.namePrefixes
    nameSuffixes := copyStringSlice other.nameSuffixes }

/-- mergeStringMaps(maps ...): fresh map, then every map's entries written
in argument order, so a later map's value wins on a colliding key.  (Go
iterates each map in unspecified order; for well-formed maps the resulting
lookup function does not depend on that order.) -/
def mergeStringMaps (maps : List (List (String × String))) :
    List (String × String) :=
  maps.foldl (fun result m => foldUpsert result m) []

/-- Resource.Replace: labels and annotations become the union of other's
under self's, name and namespace are adopted from other, and the remaining
fields are copied from other (copyOtherFields).  The four statements are
sequential mutations of r in the source. -/
def Resource.Replace (r other : Resource) : Resource :=
  let k1 := r.kunStr.SetLabels (mergeStringMaps [other.kunStr.GetLabels, r.kunStr.GetLabels])
  let r1 : Resource := { r with kunStr := k1 }
  let k2 := r1.kunStr.SetAnnotations
    (mergeStringMaps [other.kunStr.GetAnnotations, r1.kunStr.GetAnnotations])
  let r2 : Resource := { r1 with kunStr := k2 }
  let r3 : Resource := { r2 with kunStr := r2.kunStr.SetName other.GetName }
  let r4 : Resource := { r3 with kunStr := r3.kunStr.SetNamespace other.GetNamespace }
  r4.copyOtherFields other

/-- One iteration of mergeConfigmap's loop body: if the map has a "data"
key holding a mapping (the type assertion in the source), write each of
its entries into the accumulator; otherwise the map contributes nothing. -/
def cmStep (acc m : List (String × KValue)) : List (String × KValue) :=
  match alookup m "data" with
  | some (KValue.kmap datamap) => foldUpsert acc datamap
  | _ => acc

/-- mergeConfigmap(mergedTo, maps...): build mergedMap from the "data"
sub-mapping of each map in argument order (later wins), then write it
under "data" in mergedTo — unconditionally, so "data" is always bound to a
mapping afterwards. -/
def mergeConfigmap (mergedTo : List (String × KValue))
    (maps : List (List (String × KValue))) : List (String × KValue) :=
  let mergedMap := maps.foldl (fun acc m => cmStep acc m) []
  aupsert mergedTo "data" (KValue.kmap mergedMap)

/-- Resource.Merge: Replace, then mergeConfigmap(r.kunStr.Map(),
other.Map(), r.Map()).  The first argument is the document's backing map,
mutated in place by the write to its "data" key. -/
def Resource.Merge (r other : Resource) : Resource :=
  let r1 := r.Replace other
  let mergedFields := mergeConfigmap r1.kunStr.Map [other.Map, r1.Map]
  { r1 with kunStr := { r1.kunStr with fields := mergedFields } }

/-- Insertion into the footprint of a Go `map[resid.ResId]bool` used as a
set: `set[ref] = true` adds the key when absent. -/
def setInsert (s : List ResId) (x : ResId) : List ResId :=
  if x ∈ s then s else s ++ [x]

/-- Resource.ReferencesEqual: build the set of other's referrers; if some
referrer of r is missing from it, false; otherwise compare the cardinality
of r's referrer set with other's.  (In the source setSelf is populated
during the same loop that performs the membership checks; when the loop
completes without returning, setSelf holds exactly the distinct elements
of r.refBy, which is how it is written here.) -/
def Resource.ReferencesEqual (r o : Resource) : Bool :=
  let setOther := o.refBy.foldl setInsert []
  if r.refBy.all (fun ref => decide (ref ∈ setOther)) then
    let setSelf := r.refBy.foldl setInsert []
    decide (setSelf.length = setOther.length)
  else false

def Resource.GetNamePrefixes (r : Resource) : List String := r.namePrefixes

def Resource.GetNameSuffixes (r : Resource) : List String := r.nameSuffixes

def Resource.GetOutermostNamePrefix (r : Resource) : String :=
  if r.namePrefixes.length = 0 then ""
  else r.namePrefixes.getD (r.namePrefixes.length - 1) ""

def Resource.GetOutermostNameSuffix (r : Resource) : String :=
  if r.nameSuffixes.length = 0 then ""
  else r.nameSuffixes.getD (r.nameSuffixes.length - 1) ""

/-- OutermostPrefixSuffixEquals; the ResCtx interface argument is
instantiated at Resource, the sole implementor in the source. -/
def Resource.OutermostPrefixSuffixEquals (r o : Resource) : Bool :=
  (r.GetOutermostNamePrefix == o.GetOutermostNamePrefix) &&
    (r.GetOutermostNameSuffix == o.GetOutermostNameSuffix)

/-- sameEndingSubarray: compare the last compareLen elements of a and b,
where compareLen is the shorter length; an empty comparison succeeds.  The
source indexes a[alen-i] and b[blen-i] with the indices always in bounds;
the option-valued reads here are therefore always `some`. -/
def sameEndingSubarray (a b : List String) : Bool :=
  let compareLen := if a.length < b.length then a.length else b.length
  if compareLen = 0 then true
  else
    let alen := a.length - 1
    let blen := b.length - 1
    (List.range compareLen).all (fun i => a[alen - i]? == b[blen - i]?)

/-- PrefixesSuffixesEquals; the ResCtx interface argument is instantiated
at Resource, the sole implementor in the source. -/
def Resource.PrefixesSuffixesEquals (r o : Resource) : Bool :=
  sameEndingSubarray r.GetNamePrefixes o.GetNamePrefixes &&
    sameEndingSubarray r.GetNameSuffixes o.GetNameSuffixes

/-- Resource.String (renamed: `String` is the Lean string type): on a
marshal error the error message between angle brackets, otherwise the
space-trimmed marshaled bytes directly followed by the options'
rendering. -/
def Resource.string (r : Resource) : String :=
  match r.kunStr.MarshalJSON with
  | Except.error err => "<" ++ err ++ ">"
  | Except.ok bs => String.trim bs ++ r.options.rendering

/-- The ending-subsequence match in the words of the specification: with
k the minimum of the two lengths, either k = 0 or the last k elements
agree element-for-element from the end backward. -/
def endingMatchSpec (a b : List String) : Prop :=
  min a.length b.length = 0 ∨
    ∀ i, i < min a.length b.length →
      a[a.length - 1 - i]? = b[b.length - 1 - i]?

/-- The "data" sub-mapping of a document map, when present with the
expected shape. -/
def dataOf (m : List (String × KValue)) : Option (List (String × KValue)) :=
  match alookup m "data" with
  | some (KValue.kmap d) => some d
  | _ => none

/-- Lookup of a key inside the "data" sub-mapping, none when the map has
no "data" mapping of the expected shape. -/
def dataLookup (m : List (String × KValue)) (q : String) : Option KValue :=
  match dataOf m with
  | some d => alookup d q
  | none => none

/-- An outermost prefix or suffix that reads as blank: the stack is empty,
or its most recently pushed element is the empty string. -/
def blankOutermost (s : List String) : Prop :=
  s = [] ∨ s.getLast? = some ""

instance (s : List String) : Decidable (blankOutermost s) := by
  unfold blankOutermost
  infer_instance

/-! ## Concrete instances used to exercise the theorems -/

def emptyKun : Kunstructured :=
  { gvk := ⟨"", "v1", "ConfigMap"⟩
    name := ""
    ns := none
    labels := []
    annotations := []
    fields := []
    marshalOut := Except.ok "" }

def baseResource : Resource :=
  { kunStr := emptyKun
    originalName := ""
    originalNs := ""
    options := ⟨""⟩
    refBy := []
    refVarNames := []
    namePrefixes := []
    nameSuffixes := [] }

def c1ResA : Resource := { baseResource with namePrefixes := ["p1"] }

def c1ResB : Resource := { baseResource with namePrefixes := ["p0", "p1"] }

def c1ResC : Resource := { baseResource with namePrefixes := ["p1", "p2"] }

def c1ResD : Resource := { baseResource with namePrefixes := ["p1"] }

def c2Self : Resource :=
  { baseResource with kunStr := { emptyKun with labels := [("env", "self")] } }

def c2Other : Resource :=
  { baseResource with kunStr :=
      { emptyKun with labels := [("env", "other"), ("team", "x")] } }

def c3Self : Resource :=
  { baseResource with kunStr :=
      { emptyKun with fields := [("data", KValue.kmap [("k1", KValue.str "v1")])] } }

def c3Other : Resource :=
  { baseResource with kunStr :=
      { emptyKun with fields :=
          [("data", KValue.kmap [("k1", KValue.str "old"), ("k2", KValue.str "v2")])] } }

def residA : ResId := ⟨⟨"g", "v", "KindA"⟩, "a", "nsa"⟩

def residB : ResId := ⟨⟨"g", "v", "KindB"⟩, "b", "nsb"⟩

def c4Self : Resource := { baseResource with refBy := [residA, residB, residA] }

def c4Other : Resource := { baseResource with refBy := [residB, residA] }

def c5Res : Resource :=
  { baseResource with originalName := "a", kunStr := { emptyKun with name := "a" } }

def c10ResA : Resource := { baseResource with namePrefixes := [], nameSuffixes := [""] }

def c10ResB : Resource :=
  { baseResource with namePrefixes := ["x", ""], nameSuffixes := [] }

/-! ## Association-list map lemmas -/

theorem orElseO_none {β : Type} (a : Option β) : orElseO a none = a := by
  cases a <;> rfl

theorem orElseO_assoc {β : Type} (a b c : Option β) :
    orElseO (orElseO a b) c = orElseO a (orElseO b c) := by
  cases a <;> cases b <;> rfl

theorem alookup_append {β : Type} (l₁ l₂ : List (String × β)) (q : String) :
    alookup (l₁ ++ l₂) q = orElseO (alookup l₁ q) (alookup l₂ q) := by
  induction l₁ with
  | nil => rfl
  | cons kv t ih =>
    obtain ⟨k, v⟩ := kv
    by_cases h : k = q <;> simp [alookup, h, ih, orElseO]

theorem alookup_eq_none_of_not_mem {β : Type} (m : List (String × β)) (q : String)
    (h : q ∉ m.map Prod.fst) : alookup m q = none := by
  induction m with
  | nil => rfl
  | cons kv t ih =>
    obtain ⟨k, v⟩ := kv
    simp only [List.map_cons, List.mem_cons] at h
    push_neg at h
    simp [alookup, Ne.symm h.1, ih h.2]

theorem alookup_aupsert {β : Type} (m : List (String × β)) (key q : String) (v : β) :
    alookup (aupsert m key v) q = if key = q then some v else alookup m q := by
  induction m with
  | nil => by_cases h : key = q <;> simp [aupsert, alookup, h]
  | cons kv t ih =>
    obtain ⟨k, w⟩ := kv
    by_cases hk : k = key
    · subst hk
      by_cases hq : k = q <;> simp [aupsert, alookup, hq]
    · by_cases hq : k = q
      · subst hq
        have : ¬ key = k := fun h => hk h.symm
        simp [aupsert, alookup, hk, this]
      · simp [aupsert, alookup, hk, hq, ih]

theorem alookup_foldUpsert {β : Type} (m acc : List (String × β)) (q : String) :
    alookup (foldUpsert acc m) q =
      orElseO (alookup m.reverse q) (alookup acc q) := by
  induction m generalizing acc with
  | nil => simp [foldUpsert, alookup, orElseO]
  | cons kv t ih =>
    obtain ⟨k, v⟩ := kv
    have step : foldUpsert (aupsert acc k v) t = foldUpsert acc ((k, v) :: t) := rfl
    rw [← step, ih]
    rw [List.reverse_cons, alookup_append, orElseO_assoc]
    congr 1
    rw [alookup_aupsert]
    by_cases h : k = q <;> simp [alookup, h, orElseO]

theorem alookup_reverse_of_wf {β : Type} (m : List (String × β)) (h : WFmap m)
    (q : String) : alookup m.reverse q = alookup m q := by
  induction m with
  | nil => rfl
  | cons kv t ih =>
    obtain ⟨k, v⟩ := kv
    unfold WFmap at h
    simp only [List.map_cons, List.nodup_cons] at h
    rw [List.reverse_cons, alookup_append, ih h.2]
    by_cases hq : k = q
    · subst hq
      rw [alookup_eq_none_of_not_mem t k h.1]
      simp [alookup, orElseO]
    · simp [alookup, hq, orElseO_none]

theorem alookup_foldUpsert_wf {β : Type} (m acc : List (String × β)) (h : WFmap m)
    (q : String) :
    alookup (foldUpsert acc m) q = orElseO (alookup m q) (alookup acc q) := by
  rw [alookup_foldUpsert, alookup_reverse_of_wf m h]

theorem alookup_mergeStringMaps_two (m₁ m₂ : List (String × String))
    (h₁ : WFmap m₁) (h₂ : WFmap m₂) (q : String) :
    alookup (mergeStringMaps [m₁, m₂]) q =
      orElseO (alookup m₂ q) (alookup m₁ q) := by
  have e : mergeStringMaps [m₁, m₂] = foldUpsert (foldUpsert [] m₁) m₂ := rfl
  rw [e, alookup_foldUpsert_wf m₂ _ h₂, alookup_foldUpsert_wf m₁ _ h₁]
  simp [alookup, orElseO_none]

/-! ## Document and Resource helper lemmas -/

theorem getString_namespace (u : Kunstructured) :
    u.GetString "metadata.namespace" =
      match u.ns with
      | some s => (s, none)
      | none => ("", some "no field found") := by
  simp [Kunstructured.GetString]

theorem getNamespace_eq_ns (r : Resource) :
    r.GetNamespace = r.kunStr.ns.getD "" := by
  unfold Resource.GetNamespace
  rw [getString_namespace]
  cases r.kunStr.ns <;> rfl

theorem cmStep_cases (acc m : List (String × KValue)) :
    cmStep acc m =
      match dataOf m with
      | some d => foldUpsert acc d
      | none => acc := by
  unfold cmStep dataOf
  cases h : alookup m "data" with
  | none => rfl
  | some v => cases v <;> rfl

theorem alookup_cmStep_two (m₁ m₂ : List (String × KValue)) (q : String)
    (h₁ : WFmap ((dataOf m₁).getD [])) (h₂ : WFmap ((dataOf m₂).getD [])) :
    alookup (cmStep (cmStep [] m₁) m₂) q =
      orElseO (dataLookup m₂ q) (dataLookup m₁ q) := by
  rw [cmStep_cases, cmStep_cases]
  unfold dataLookup
  cases hd₁ : dataOf m₁ with
  | none =>
    cases hd₂ : dataOf m₂ with
    | none => simp [alookup, orElseO]
    | some d₂ =>
      rw [hd₂] at h₂
      simp only [Option.getD_some] at h₂
      rw [alookup_foldUpsert_wf d₂ _ h₂]
      simp [alookup, orElseO_none]
  | some d₁ =>
    rw [hd₁] at h₁
    simp only [Option.getD_some] at h₁
    cases hd₂ : dataOf m₂ with
    | none =>
      rw [alookup_foldUpsert_wf d₁ _ h₁]
      show orElseO (alookup d₁ q) none = orElseO none (alookup d₁ q)
      cases alookup d₁ q <;> rfl
    | some d₂ =>
      rw [hd₂] at h₂
      simp only [Option.getD_some] at h₂
      rw [alookup_foldUpsert_wf d₂ _ h₂, alookup_foldUpsert_wf d₁ _ h₁]
      simp [alookup, orElseO_none]

theorem merge_fields_eq (r o : Resource) :
    (r.Merge o).kunStr.fields =
      aupsert r.kunStr.fields "data"
        (KValue.kmap (cmStep (cmStep [] o.kunStr.fields) r.kunStr.fields)) := rfl

theorem getD_of_getLast? (l : List String) (x : String) (h : l.getLast? = some x) :
    l.getD (l.length - 1) "" = x := by
  rw [List.getD_eq_getElem?_getD, ← List.getLast?_eq_getElem?, h]
  rfl

theorem blank_outermost_value (s : List String) (h : blankOutermost s) :
    (if s.length = 0 then "" else s.getD (s.length - 1) "") = "" := by
  rcases h with h | h
  · subst h
    rfl
  · have hne : s ≠ [] := by
      intro he
      subst he
      simp [List.getLast?] at h
    rw [if_neg (by simpa [List.length_eq_zero] using hne)]
    exact getD_of_getLast? s "" h

theorem min_eq_goLen (a b : List String) :
    (if a.length < b.length then a.length else b.length) =
      min a.length b.length := by
  rcases Nat.lt_or_ge a.length b.length with h | h
  · rw [if_pos h, Nat.min_eq_left (Nat.le_of_lt h)]
  · rw [if_neg (Nat.not_lt.mpr h), Nat.min_eq_right h]

theorem sameEndingSubarray_iff (a b : List String) :
    sameEndingSubarray a b = true ↔ endingMatchSpec a b := by
  unfold sameEndingSubarray endingMatchSpec
  rw [min_eq_goLen a b]
  by_cases hk : min a.length b.length = 0
  · simp [hk]
  · rw [if_neg hk]
    simp only [hk, false_or, List.all_eq_true, List.mem_range, beq_iff_eq]

/-! ## Reference-set lemmas -/

theorem mem_setInsert (s : List ResId) (a x : ResId) :
    x ∈ setInsert s a ↔ x ∈ s ∨ x = a := by
  unfold setInsert
  by_cases h : a ∈ s
  · rw [if_pos h]
    constructor
    · exact Or.inl
    · rintro (hx | rfl)
      · exact hx
      · exact h
  · rw [if_neg h]
    simp

theorem mem_foldl_setInsert (l acc : List ResId) (x : ResId) :
    x ∈ l.foldl setInsert acc ↔ x ∈ acc ∨ x ∈ l := by
  induction l generalizing acc with
  | nil => simp
  | cons a t ih =>
    rw [List.foldl_cons, ih, mem_setInsert]
    simp only [List.mem_cons]
    tauto

theorem nodup_foldl_setInsert (l acc : List ResId) (h : acc.Nodup) :
    (l.foldl setInsert acc).Nodup := by
  induction l generalizing acc with
  | nil => exact h
  | cons a t ih =>
    rw [List.foldl_cons]
    apply ih
    unfold setInsert
    by_cases ha : a ∈ acc
    · rwa [if_pos ha]
    · rw [if_neg ha, List.nodup_append]
      exact ⟨h, List.nodup_singleton a, by simpa using ha⟩

theorem referencesEqual_characterization (r o : Resource) :
    r.ReferencesEqual o = true ↔
      ((∀ x ∈ r.refBy, x ∈ o.refBy.foldl setInsert []) ∧
        (r.refBy.foldl setInsert []).length =
          (o.refBy.foldl setInsert []).length) := by
  unfold Resource.ReferencesEqual
  by_cases hall :
      r.refBy.all (fun ref => decide (ref ∈ o.refBy.foldl setInsert [])) = true
  · rw [if_pos hall]
    simp only [List.all_eq_true, decide_eq_true_eq] at hall
    simp [hall]
    exact fun _ => hall
  · rw [if_neg hall]
    simp only [List.all_eq_true, decide_eq_true_eq] at hall
    simp [hall]

/-! ## Claim theorems -/

/-- C1: for every pair of Resources, PrefixesSuffixesEquals is true iff,
for the prefix stacks and the suffix stacks independently, with k the
minimum of the two lengths, either k = 0 or the last k elements agree
element-for-element from the end backward; in particular prefix stacks
["p1"] and ["p0", "p1"] match while ["p1", "p2"] and ["p1"] do not. -/
theorem prefixesSuffixesEquals_ending_match :
    (∀ r o : Resource, r.PrefixesSuffixesEquals o = true ↔
      (endingMatchSpec r.namePrefixes o.namePrefixes ∧
        endingMatchSpec r.nameSuffixes o.nameSuffixes)) ∧
    c1ResA.PrefixesSuffixesEquals c1ResB = true ∧
    c1ResC.PrefixesSuffixesEquals c1ResD = false := by
  refine ⟨fun r o => ?_, by decide, by decide⟩
  unfold Resource.PrefixesSuffixesEquals
  rw [Bool.and_eq_true, sameEndingSubarray_iff, sameEndingSubarray_iff]
  exact Iff.rfl

/-- C4: ReferencesEqual is true iff the referred-by identities of the two
Resources are equal as sets, independent of list order and duplicate
multiplicity; in particular refBy lists [A, B, A] and [B, A] compare
equal. -/
theorem referencesEqual_set_equality :
    (∀ r o : Resource, r.ReferencesEqual o = true ↔
      ∀ x : ResId, x ∈ r.refBy ↔ x ∈ o.refBy) ∧
    c4Self.ReferencesEqual c4Other = true := by
  refine ⟨fun r o => ?_, by decide⟩
  rw [referencesEqual_characterization]
  have memS : ∀ x : ResId, x ∈ r.refBy.foldl setInsert [] ↔ x ∈ r.refBy := by
    intro x
    rw [mem_foldl_setInsert]
    simp
  have memO : ∀ x : ResId, x ∈ o.refBy.foldl setInsert [] ↔ x ∈ o.refBy := by
    intro x
    rw [mem_foldl_setInsert]
    simp
  have ndS : (r.refBy.foldl setInsert []).Nodup :=
    nodup_foldl_setInsert _ _ List.nodup_nil
  have ndO : (o.refBy.foldl setInsert []).Nodup :=
    nodup_foldl_setInsert _ _ List.nodup_nil
  have tfS : (r.refBy.foldl setInsert []).toFinset = r.refBy.toFinset := by
    apply Finset.ext
    intro x
    rw [List.mem_toFinset, List.mem_toFinset, memS]
  have tfO : (o.refBy.foldl setInsert []).toFinset = o.refBy.toFinset := by
    apply Finset.ext
    intro x
    rw [List.mem_toFinset, List.mem_toFinset, memO]
  have lenS : (r.refBy.foldl setInsert []).length = r.refBy.toFinset.card := by
    rw [← tfS, List.toFinset_card_of_nodup ndS]
  have lenO : (o.refBy.foldl setInsert []).length = o.refBy.toFinset.card := by
    rw [← tfO, List.toFinset_card_of_nodup ndO]
  constructor
  · rintro ⟨hsub, hlen⟩
    have hsub' : r.refBy.toFinset ⊆ o.refBy.toFinset := by
      intro x hx
      rw [List.mem_toFinset] at hx ⊢
      exact (memO x).mp (hsub x hx)
    have hcard : o.refBy.toFinset.card ≤ r.refBy.toFinset.card := by
      rw [← lenS, ← lenO, hlen]
    have heq := Finset.eq_of_subset_of_card_le hsub' hcard
    intro x
    rw [← List.mem_toFinset, ← List.mem_toFinset (l := o.refBy), heq]
  · intro h
    have heq : r.refBy.toFinset = o.refBy.toFinset := by
      apply Finset.ext
      intro x
      rw [List.mem_toFinset, List.mem_toFinset]
      exact h x
    constructor
    · intro x hx
      exact (memO x).mpr ((h x).mp hx)
    · rw [lenS, lenO, heq]

/-- C5: CurId is recomputed from the live document state while OrgId uses
the snapshotted original name: for a Resource whose original name and
document name are both a, renaming the document to b makes CurId's name b
while OrgId's name stays a (and the whole OrgId is unchanged by the
rename). -/
theorem curId_live_orgId_snapshot (r : Resource) (a b : String)
    (h₁ : r.originalName = a) (h₂ : r.kunStr.name = a) :
    r.CurId.name = a ∧ (r.SetName b).CurId.name = b ∧
      (r.SetName b).OrgId.name = a ∧ (r.SetName b).OrgId = r.OrgId :=
  ⟨h₂, rfl, h₁, rfl⟩

/-- C5 witness: the concrete rename from "a" to "b". -/
theorem curId_live_orgId_snapshot_witness :
    c5Res.CurId.name = "a" ∧ (c5Res.SetName "b").CurId.name = "b" ∧
      (c5Res.SetName "b").OrgId.name = "a" ∧
      (c5Res.SetName "b").OrgId = c5Res.OrgId :=
  curId_live_orgId_snapshot c5Res "a" "b" rfl rfl

/-- C6: String() returns, when marshaling succeeds, exactly the trimmed
marshaled bytes concatenated with the options' textual rendering with no
separator; a marshal failure is not propagated but rendered as the error
message in angle brackets. -/
theorem string_output_shape (r : Resource) :
    (∀ bs, r.kunStr.MarshalJSON = Except.ok bs →
      r.string = String.trim bs ++ r.options.rendering) ∧
    (∀ e, r.kunStr.MarshalJSON = Except.error e →
      r.string = "<" ++ e ++ ">") := by
  constructor
  · intro bs h
    unfold Resource.string
    rw [h]
  · intro e h
    unfold Resource.string
    rw [h]

/-- C7: GetNamespace never surfaces an error: it always returns the value
component of the document's namespace lookup, and when that lookup fails
it returns the empty string, indistinguishable from an absent
namespace. -/
theorem getNamespace_swallows_error (r : Resource)
    (h : (r.kunStr.GetString "metadata.namespace").2 ≠ none) :
    r.GetNamespace = "" ∧
      r.GetNamespace = (r.kunStr.GetString "metadata.namespace").1 := by
  refine ⟨?_, rfl⟩
  rw [getNamespace_eq_ns]
  cases hns : r.kunStr.ns with
  | some s =>
    rw [getString_namespace, hns] at h
    simp at h
  | none => rfl

/-- C7 witness: a Resource whose document has no namespace field. -/
theorem getNamespace_swallows_error_witness :
    baseResource.GetNamespace = "" ∧
      baseResource.GetNamespace =
        (baseResource.kunStr.GetString "metadata.namespace").1 :=
  getNamespace_swallows_error baseResource (by decide)

/-- C8: ResetPrimaryData replaces only the owned document with a copy of
the incoming Resource's document; originalName, originalNs, options,
refBy, refVarNames and the two name stacks are untouched. -/
theorem resetPrimaryData_frame (r incoming : Resource) :
    (r.ResetPrimaryData incoming).kunStr = incoming.kunStr ∧
    (r.ResetPrimaryData incoming).originalName = r.originalName ∧
    (r.ResetPrimaryData incoming).originalNs = r.originalNs ∧
    (r.ResetPrimaryData incoming).options = r.options ∧
    (r.ResetPrimaryData incoming).refBy = r.refBy ∧
    (r.ResetPrimaryData incoming).refVarNames = r.refVarNames ∧
    (r.ResetPrimaryData incoming).namePrefixes = r.namePrefixes ∧
    (r.ResetPrimaryData incoming).nameSuffixes = r.nameSuffixes :=
  ⟨rfl, rfl, rfl, rfl, rfl, rfl, rfl, rfl⟩

/-- C9: after Merge the document always has a "data" key bound to a
mapping, and when neither document carries a "data" sub-mapping of the
expected shape the bound mapping is empty rather than the key being left
absent. -/
theorem merge_data_always_mapping (r o : Resource) :
    (∃ d, alookup (r.Merge o).kunStr.fields "data" = some (KValue.kmap d)) ∧
    ((dataOf r.kunStr.fields = none ∧ dataOf o.kunStr.fields = none) →
      alookup (r.Merge o).kunStr.fields "data" = some (KValue.kmap [])) := by
  constructor
  · refine ⟨cmStep (cmStep [] o.kunStr.fields) r.kunStr.fields, ?_⟩
    rw [merge_fields_eq, alookup_aupsert]
    simp
  · rintro ⟨h₁, h₂⟩
    rw [merge_fields_eq, cmStep_cases, cmStep_cases, h₁, h₂, alookup_aupsert]
    simp

/-- C10: the outermost-prefix and outermost-suffix accessors return the
empty string both on an empty stack and when the most recently pushed
element is the empty string; hence two Resources whose stacks differ
only in these ways are OutermostPrefixSuffixEquals. -/
theorem outermost_blank_coincidence (r o : Resource)
    (hp : blankOutermost r.namePrefixes) (hs : blankOutermost r.nameSuffixes)
    (hp' : blankOutermost o.namePrefixes) (hs' : blankOutermost o.nameSuffixes) :
    r.GetOutermostNamePrefix = "" ∧ r.GetOutermostNameSuffix = "" ∧
      o.GetOutermostNamePrefix = "" ∧ o.GetOutermostNameSuffix = "" ∧
      r.OutermostPrefixSuffixEquals o = true := by
  have e₁ : r.GetOutermostNamePrefix = "" := blank_outermost_value _ hp
  have e₂ : r.GetOutermostNameSuffix = "" := blank_outermost_value _ hs
  have e₃ : o.GetOutermostNamePrefix = "" := blank_outermost_value _ hp'
  have e₄ : o.GetOutermostNameSuffix = "" := blank_outermost_value _ hs'
  refine ⟨e₁, e₂, e₃, e₄, ?_⟩
  unfold Resource.OutermostPrefixSuffixEquals
  rw [e₁, e₂, e₃, e₄]
  rfl

/-- C10 witness: one Resource with empty prefix stack and a suffix stack
ending in "", one with a prefix stack ending in "" and an empty suffix
stack. -/
theorem outermost_blank_coincidence_witness :
    c10ResA.GetOutermostNamePrefix = "" ∧
      c10ResA.GetOutermostNameSuffix = "" ∧
      c10ResB.GetOutermostNamePrefix = "" ∧
      c10ResB.GetOutermostNameSuffix = "" ∧
      c10ResA.OutermostPrefixSuffixEquals c10ResB = true :=
  outermost_blank_coincidence c10ResA c10ResB (by decide) (by decide)
    (by decide) (by decide)

/-- C2: Replace makes self's labels the union of other's and self's with
self winning on collision (same for annotations), adopts other's name and
namespace, and overwrites originalName, originalNs, options, refBy,
refVarNames and the two name stacks with other's. -/
theorem replace_union_and_provenance (r o : Resource) (q : String)
    (hrl : WFmap r.kunStr.labels) (hol : WFmap o.kunStr.labels)
    (hra : WFmap r.kunStr.annotations) (hoa : WFmap o.kunStr.annotations) :
    alookup (r.Replace o).kunStr.labels q =
      orElseO (alookup r.kunStr.labels q) (alookup o.kunStr.labels q) ∧
    alookup (r.Replace o).kunStr.annotations q =
      orElseO (alookup r.kunStr.annotations q) (alookup o.kunStr.annotations q) ∧
    (r.Replace o).kunStr.name = o.kunStr.name ∧
    (r.Replace o).GetNamespace = o.GetNamespace ∧
    (r.Replace o).originalName = o.originalName ∧
    (r.Replace o).originalNs = o.originalNs ∧
    (r.Replace o).options = o.options ∧
    (r.Replace o).refBy = o.refBy ∧
    (r.Replace o).refVarNames = o.refVarNames ∧
    (r.Replace o).namePrefixes = o.namePrefixes ∧
    (r.Replace o).nameSuffixes = o.nameSuffixes := by
  refine ⟨?_, ?_, rfl, ?_, rfl, rfl, rfl, rfl, rfl, rfl, rfl⟩
  · exact alookup_mergeStringMaps_two o.kunStr.labels r.kunStr.labels hol hrl q
  · exact
      alookup_mergeStringMaps_two o.kunStr.annotations r.kunStr.annotations hoa hra q
  · have hns : (r.Replace o).kunStr.ns = some o.GetNamespace := rfl
    rw [getNamespace_eq_ns, hns]
    rfl

/-- C2 witness: self labels env=self, other labels env=other, team=x; the
replaced labels read env=self and team=x. -/
theorem replace_union_and_provenance_witness :
    alookup (c2Self.Replace c2Other).kunStr.labels "env" = some "self" ∧
    alookup (c2Self.Replace c2Other).kunStr.labels "team" = some "x" :=
  ⟨((replace_union_and_provenance c2Self c2Other "env" (by decide) (by decide)
      (by decide) (by decide)).1).trans (by decide),
    ((replace_union_and_provenance c2Self c2Other "team" (by decide) (by decide)
      (by decide) (by decide)).1).trans (by decide)⟩

/-- C3: Merge first performs Replace in full — it agrees with Replace on
labels, annotations, name, namespace, every provenance field and every
document key other than "data" — and then rebinds "data" to the shallow
key-level union of other's and self's "data" sub-mappings with self's
entries winning on collision. -/
theorem merge_replace_then_data_union (r o : Resource) (q : String)
    (ho : WFmap ((dataOf o.kunStr.fields).getD []))
    (hr : WFmap ((dataOf r.kunStr.fields).getD [])) :
    (r.Merge o).kunStr.labels = (r.Replace o).kunStr.labels ∧
    (r.Merge o).kunStr.annotations = (r.Replace o).kunStr.annotations ∧
    (r.Merge o).kunStr.name = (r.Replace o).kunStr.name ∧
    (r.Merge o).kunStr.ns = (r.Replace o).kunStr.ns ∧
    (r.Merge o).originalName = (r.Replace o).originalName ∧
    (r.Merge o).originalNs = (r.Replace o).originalNs ∧
    (r.Merge o).options = (r.Replace o).options ∧
    (r.Merge o).refBy = (r.Replace o).refBy ∧
    (r.Merge o).refVarNames = (r.Replace o).refVarNames ∧
    (r.Merge o).namePrefixes = (r.Replace o).namePrefixes ∧
    (r.Merge o).nameSuffixes = (r.Replace o).nameSuffixes ∧
    (∀ key, key ≠ "data" →
      alookup (r.Merge o).kunStr.fields key =
        alookup (r.Replace o).kunStr.fields key) ∧
    dataLookup (r.Merge o).kunStr.fields q =
      orElseO (dataLookup r.kunStr.fields q) (dataLookup o.kunStr.fields q) := by
  refine ⟨rfl, rfl, rfl, rfl, rfl, rfl, rfl, rfl, rfl, rfl, rfl, ?_, ?_⟩
  · intro key hkey
    rw [merge_fields_eq, alookup_aupsert, if_neg (fun h => hkey h.symm)]
    rfl
  · have hdata :
        dataOf (r.Merge o).kunStr.fields =
          some (cmStep (cmStep [] o.kunStr.fields) r.kunStr.fields) := by
      unfold dataOf
      rw [merge_fields_eq, alookup_aupsert]
      simp
    unfold dataLookup
    rw [hdata]
    exact alookup_cmStep_two o.kunStr.fields r.kunStr.fields q ho hr

/-- C3 witness: self data k1=v1, other data k1=old, k2=v2; the merged data
reads k1=v1 and k2=v2. -/
theorem merge_replace_then_data_union_witness :
    dataLookup (c3Self.Merge c3Other).kunStr.fields "k1" =
      some (KValue.str "v1") ∧
    dataLookup (c3Self.Merge c3Other).kunStr.fields "k2" =
      some (KValue.str "v2") :=
  ⟨((merge_replace_then_data_union c3Self c3Other "k1" (by decide)
      (by decide)).2.2.2.2.2.2.2.2.2.2.2.2).trans rfl,
    ((merge_replace_then_data_union c3Self c3Other "k2" (by decide)
      (by decide)).2.2.2.2.2.2.2.2.2.2.2.2).trans rfl⟩
